import Mathlib

/-!
Shallow embedding of the yeeylight TypeScript library (device session engine
in `Yeelight`, discovery scanner in `Discovery`) and proofs about the frozen
claims C1..C10.  Each definition is translated from the source; the JSON
decoder (Node's `JSON.parse` plus the `"method" in r` / `"id" in r` key
probes) is external library code, so the session functions are parameterised
over a `decode` function that stands for it.
-/

namespace Yeeylight

/-- A JSON-ish parameter value as used in outbound command `params` arrays
(`[brightness, "smooth", duration]`, `[rgb, "smooth", duration]`, ...). -/
inductive Param where
  | int (n : Int)
  | str (s : String)
deriving DecidableEq, Repr

/-- `CommandOptions` from `types.ts`, as built by `sendCommand`
(`{ id, method, params }`; `id` is always set there). -/
structure CommandOptions where
  id : Nat
  method : String
  params : List Param
deriving DecidableEq, Repr

/-- `YeelightError` from `types.ts`: a message plus optional device error
code and optional originating command. -/
structure YeelightErr where
  message : String
  code : Option Int
  command : Option CommandOptions
deriving DecidableEq, Repr

/-- The shape information `handleData` probes out of a JSON-decoded line:
presence/value of the `method`, `id` and `error` keys.  Produced by the
abstract `decode` parameter standing for `JSON.parse` plus the key tests. -/
structure Decoded where
  method? : Option String
  id? : Option Nat
  error? : Option (Int × String)
deriving DecidableEq, Repr

/-- Observable effects of the session: emitted events (`connected`,
`disconnected`, `notification`), diagnostic-sink calls (`logger.error`),
and per-command completions (promise resolve/reject). -/
inductive Event where
  | connectedEv
  | disconnectedEv
  | notificationEv (d : Decoded)
  | logErrorEv (msg : String)
  | resolveEv (id : Nat) (d : Decoded)
  | rejectEv (id : Nat) (e : YeelightErr)
deriving DecidableEq, Repr

/-- The mutable state of one `Yeelight` instance: `messageId` counter,
`connected` flag, socket presence, the pending-command `Map` (`commandQueue`)
and the line-framing text `buffer`. -/
structure SessionState where
  messageId : Nat
  connected : Bool
  hasSocket : Bool
  commandQueue : List (Nat × CommandOptions)
  buffer : List Char
deriving DecidableEq, Repr

/-- The state of a freshly constructed `Yeelight` object. -/
def initState : SessionState :=
  { messageId := 0, connected := false, hasSocket := false,
    commandQueue := [], buffer := [] }

/-- `Map.prototype.set` on the pending table: replace in place if the key
exists, else append. -/
def qSet (k : Nat) (v : CommandOptions) :
    List (Nat × CommandOptions) → List (Nat × CommandOptions)
  | [] => [(k, v)]
  | (k', v') :: rest =>
      if k' = k then (k, v) :: rest else (k', v') :: qSet k v rest

/-- `Map.prototype.get` on the pending table. -/
def qGet (k : Nat) : List (Nat × CommandOptions) → Option CommandOptions
  | [] => none
  | (k', v') :: rest => if k' = k then some v' else qGet k rest

/-- `Map.prototype.delete` on the pending table. -/
def qDelete (k : Nat) :
    List (Nat × CommandOptions) → List (Nat × CommandOptions)
  | [] => []
  | (k', v') :: rest =>
      if k' = k then rest else (k', v') :: qDelete k rest

/-- Serialize one parameter the way `JSON.stringify` does (the strings the
library sends — `"smooth"`, power modes — need no escaping). -/
def serializeParam : Param → String
  | .int n => toString n
  | .str s => "\"" ++ s ++ "\""

/-- Serialize a parameter list `[p1,p2,...]`. -/
def serializeParams (ps : List Param) : String :=
  "[" ++ String.intercalate "," (ps.map serializeParam) ++ "]"

/-- `JSON.stringify(command)` for `{ id, method, params }` (JS object-literal
key order: id, method, params). -/
def serializeCommand (c : CommandOptions) : String :=
  "\x7b\"id\":" ++ toString c.id ++ ",\"method\":\"" ++ c.method ++
    "\",\"params\":" ++ serializeParams c.params ++ "\x7d"

/-- `new YeelightError("Not connected to device")`. -/
def notConnectedErr : YeelightErr := ⟨"Not connected to device", none, none⟩

/-- `new YeelightError("Connection closed")`. -/
def connectionClosedErr : YeelightErr := ⟨"Connection closed", none, none⟩

/-- `Yeelight.sendCommand(method, params)`: fails with the not-connected
error when `!this.connected || !this.socket`, otherwise allocates
`++this.messageId` as the id, registers the pending command and writes the
serialized line.  Returns the new state, the list of strings written to the
socket, and either the allocated id or the synchronous error. -/
def sendCommand (st : SessionState) (method : String) (params : List Param) :
    SessionState × List String × Except YeelightErr Nat :=
  if !st.connected || !st.hasSocket then
    (st, [], .error notConnectedErr)
  else
    let id := st.messageId + 1
    let command : CommandOptions := ⟨id, method, params⟩
    let commandString := serializeCommand command ++ "\r\n"
    ({ st with messageId := id,
               commandQueue := qSet id command st.commandQueue },
     [commandString], .ok id)

/-- `Yeelight.setBrightness(brightness, duration)`: throws the validation
error for values outside `1..100`, else sends `set_bright`. -/
def setBrightness (st : SessionState) (brightness : Int) (duration : Int) :
    SessionState × List String × Except YeelightErr Nat :=
  if brightness < 1 || brightness > 100 then
    (st, [], .error ⟨"Brightness must be between 1 and 100", none, none⟩)
  else
    sendCommand st "set_bright" [.int brightness, .str "smooth", .int duration]

/-- JavaScript `ToUint32`: the argument reduced into `[0, 2^32)`. -/
def toUint32 (n : Int) : Int := n.emod 4294967296

/-- JavaScript `ToInt32`: the argument reduced into `[-2^31, 2^31)`. -/
def toInt32 (n : Int) : Int :=
  let m := n.emod 4294967296
  if m < 2147483648 then m else m - 4294967296

/-- JavaScript `x << k` for `0 ≤ k < 32`: shift the 32-bit value left,
discard overflow, reinterpret as signed 32-bit. -/
def jsShl (x : Int) (k : Nat) : Int := toInt32 (toUint32 x * 2 ^ k)

/-- JavaScript `a | b`: bitwise or of the 32-bit values, reinterpreted as
signed 32-bit. -/
def jsOr (a b : Int) : Int :=
  toInt32 (Int.ofNat (Nat.lor (toUint32 a).toNat (toUint32 b).toNat))

/-- The packed color computed by `setRGB`:
`(red << 16) | (green << 8) | blue` under JS 32-bit bitwise semantics. -/
def rgbEncode (red green blue : Int) : Int :=
  jsOr (jsOr (jsShl red 16) (jsShl green 8)) blue

/-- `Yeelight.setRGB(red, green, blue, duration)`: no range validation;
packs the components and sends `set_rgb`. -/
def setRGB (st : SessionState) (red green blue duration : Int) :
    SessionState × List String × Except YeelightErr Nat :=
  let rgb := rgbEncode red green blue
  sendCommand st "set_rgb" [.int rgb, .str "smooth", .int duration]

/-- The `buffer.indexOf("\n")` / slice step of `handleData`: split the
buffer at the first newline into the complete line and the rest, or `none`
when no newline is present. -/
def breakNl : List Char → Option (List Char × List Char)
  | [] => none
  | c :: rest =>
      if c = '\n' then some ([], rest)
      else (breakNl rest).map (fun p => (c :: p.1, p.2))

/-- The body of `handleData`'s `try`-block for one complete line: decode it
(`decode` stands for `JSON.parse` plus the key probes; `none` models both a
parse failure and the `TypeError` thrown by `in` on a non-object, both caught
by the `catch` that calls `logger.error`); a `method` key means notification,
else an `id` key means a response correlated against the pending table, else
the line is ignored.  Returns the updated pending table and emitted events. -/
def processLine (decode : List Char → Option Decoded)
    (queue : List (Nat × CommandOptions)) (line : List Char) :
    List (Nat × CommandOptions) × List Event :=
  match decode line with
  | none =>
      (queue, [.logErrorEv "Failed to parse response"])
  | some d =>
      if d.method?.isSome then
        (queue, [.notificationEv d])
      else
        match d.id? with
        | some i =>
            match qGet i queue with
            | some cmd =>
                let queue' := qDelete i queue
                match d.error? with
                | some (code, msg) =>
                    (queue', [.rejectEv i ⟨msg, some code, some cmd⟩])
                | none => (queue', [.resolveEv i d])
            | none => (queue, [])
        | none => (queue, [])

/-- A session state with the buffer and pending table replaced (proof
shorthand; the other fields are untouched by the drain loop). -/
def withBQ (st : SessionState) (b : List Char)
    (q : List (Nat × CommandOptions)) : SessionState :=
  { st with buffer := b, commandQueue := q }

/-- One-step-bounded version of `handleData`'s
`while ((newlineIndex = this.buffer.indexOf("\n")) !== -1)` loop: repeatedly
remove the first complete line from the buffer and process it.  The `fuel`
argument is only a structural termination bound; every iteration consumes at
least one buffered character, so `st.buffer.length` fuel is always enough
(`drainFuel_congr` below shows the result does not depend on the exact fuel
once it is sufficient). -/
def drainFuel (decode : List Char → Option Decoded) :
    Nat → SessionState → SessionState × List Event
  | 0, st => (st, [])
  | fuel + 1, st =>
      match breakNl st.buffer with
      | none => (st, [])
      | some (line, rest) =>
          let pl := processLine decode st.commandQueue line
          let d := drainFuel decode fuel (withBQ st rest pl.1)
          (d.1, pl.2 ++ d.2)

/-- The drain loop of `handleData`, run to completion. -/
def drainLoop (decode : List Char → Option Decoded) (st : SessionState) :
    SessionState × List Event :=
  drainFuel decode st.buffer.length st

/-- The text-level core of `Yeelight.handleData(data)`: append the already
decoded chunk text to the buffer, then drain all complete lines.  The
transport hands `handleData` raw bytes which it first runs through the
per-chunk `data.toString()`; that byte layer is `handleDataBytes` below. -/
def handleData (decode : List Char → Option Decoded) (st : SessionState)
    (chunk : List Char) : SessionState × List Event :=
  drainLoop decode (withBQ st (st.buffer ++ chunk) st.commandQueue)

/-- U+FFFD, the replacement character `Buffer.toString` substitutes for
invalid or truncated UTF-8. -/
def replacementChar : Char := Char.ofNat 0xFFFD

/-- The state of the WHATWG UTF-8 decoder between bytes: either at a
character boundary (`start`) or mid-sequence with the partial code point,
the number of continuation bytes still needed, and the admissible range
`[lo, hi)` for the next byte (narrowed after E0/ED/F0/F4 leads to exclude
overlong forms and surrogates). -/
inductive DecState where
  | start
  | mid (acc : Nat) (needed : Nat) (lo : Nat) (hi : Nat)
deriving DecidableEq, Repr

/-- One byte fed to the decoder at a character boundary. -/
def utf8StepStart (b : Nat) : DecState × List Char :=
  if b < 0x80 then (.start, [Char.ofNat b])
  else if b < 0xC2 then (.start, [replacementChar])
  else if b < 0xE0 then (.mid (b - 0xC0) 1 0x80 0xC0, [])
  else if b < 0xF0 then
    (.mid (b - 0xE0) 2
      (if b = 0xE0 then 0xA0 else 0x80)
      (if b = 0xED then 0xA0 else 0xC0), [])
  else if b < 0xF5 then
    (.mid (b - 0xF0) 3
      (if b = 0xF0 then 0x90 else 0x80)
      (if b = 0xF4 then 0x90 else 0xC0), [])
  else (.start, [replacementChar])

/-- One byte fed to the decoder: mid-sequence, a byte outside the expected
continuation range emits one U+FFFD for the maximal invalid subpart and is
then reprocessed at a character boundary (the WHATWG "prepend byte to
stream" rule). -/
def utf8Step : DecState → Nat → DecState × List Char
  | .start, b => utf8StepStart b
  | .mid acc needed lo hi, b =>
      if decide (lo ≤ b) && decide (b < hi) then
        if needed = 1 then (.start, [Char.ofNat (acc * 64 + (b - 0x80))])
        else (.mid (acc * 64 + (b - 0x80)) (needed - 1) 0x80 0xC0, [])
      else
        ((utf8StepStart b).1, replacementChar :: (utf8StepStart b).2)

/-- Run the decoder over a byte list from a given state, without the
end-of-input flush. -/
def utf8Consume (st : DecState) : List Nat → DecState × List Char
  | [] => (st, [])
  | b :: rest =>
      let s1 := utf8Step st b
      let s2 := utf8Consume s1.1 rest
      (s2.1, s1.2 ++ s2.2)

/-- Model of Node's per-chunk `Buffer.prototype.toString("utf8")` (external
library code): WHATWG UTF-8 decoding of this chunk alone, substituting one
U+FFFD per maximal invalid subpart — in particular a multi-byte character
truncated at the end of a chunk, or a stray continuation byte at the start
of one, becomes U+FFFD rather than being carried over to the next chunk
(the source uses no streaming `string_decoder`). -/
def utf8Decode (bs : List Nat) : List Char :=
  (utf8Consume DecState.start bs).2 ++
    (if (utf8Consume DecState.start bs).1 = DecState.start then []
     else [replacementChar])

/-- Does this byte chunk end at a UTF-8 character boundary (no multi-byte
character is cut by the delivery boundary at its end)?  Chunks that also
start at a boundary are exactly those for which the per-chunk decode agrees
with a streaming decode. -/
def chunkAligned (bs : List Nat) : Bool :=
  decide ((utf8Consume DecState.start bs).1 = DecState.start)

/-- `Yeelight.handleData(data)` at the transport level: the source runs
`this.buffer += data.toString()` on each chunk separately, so each chunk is
UTF-8-decoded on its own before entering the buffer. -/
def handleDataBytes (decode : List Char → Option Decoded)
    (st : SessionState) (chunk : List Nat) : SessionState × List Event :=
  handleData decode st (utf8Decode chunk)

/-- `Yeelight.handleClose()`: set `connected = false`, emit `disconnected`,
then reject every pending command with `"Connection closed"` and clear the
table — in that order. -/
def handleClose (st : SessionState) : SessionState × List Event :=
  ({ st with connected := false, commandQueue := [] },
   Event.disconnectedEv ::
     st.commandQueue.map (fun p => Event.rejectEv p.1 connectionClosedErr))

/-- `Yeelight.handleError(error)`: emit `error`, set `connected = false`. -/
def handleError (st : SessionState) (msg : String) :
    SessionState × List Event :=
  ({ st with connected := false }, [.logErrorEv msg])

/-- The `setTimeout` callback registered by `sendCommand` for command `i`:
delete the pending entry and reject with `"Command timeout"` carrying the
original command.  The timer only exists while the command is pending (every
resolution path clears it), so firing with no entry is a no-op. -/
def fireTimeout (st : SessionState) (i : Nat) : SessionState × List Event :=
  match qGet i st.commandQueue with
  | some c =>
      ({ st with commandQueue := qDelete i st.commandQueue },
       [.rejectEv i ⟨"Command timeout", none, some c⟩])
  | none => (st, [])

/-- Deliver a list of chunks to `handleData` one after the other,
concatenating the emitted events (models successive `data` events on the
socket). -/
def handleChunks (decode : List Char → Option Decoded) (st : SessionState) :
    List (List Char) → SessionState × List Event
  | [] => (st, [])
  | c :: cs =>
      let h1 := handleData decode st c
      let h2 := handleChunks decode h1.1 cs
      (h2.1, h1.2 ++ h2.2)

/-- Deliver a list of byte chunks to the transport-level `handleData` one
after the other (models successive `data` events on the socket, each
carrying a `Buffer`). -/
def handleChunksBytes (decode : List Char → Option Decoded)
    (st : SessionState) : List (List Nat) → SessionState × List Event
  | [] => (st, [])
  | c :: cs =>
      let h1 := handleDataBytes decode st c
      let h2 := handleChunksBytes decode h1.1 cs
      (h2.1, h1.2 ++ h2.2)

/-- `DeviceInfo` from `types.ts`.  `port` is `none` when `parseInt` yielded
`NaN`; the optional attribute fields are `undefined` when absent. -/
structure DeviceInfo where
  ip : String
  port : Option Int
  id : Option String
  model : Option String
  name : Option String
  firmware : Option String
  support : Option (List String)
  power : Option String
deriving DecidableEq, Repr

/-- `Map.prototype.set` on the discovery `Map<string, DeviceInfo>`. -/
def dSet (k : String) (v : DeviceInfo) :
    List (String × DeviceInfo) → List (String × DeviceInfo)
  | [] => [(k, v)]
  | (k', v') :: rest =>
      if k' = k then (k, v) :: rest else (k', v') :: dSet k v rest

/-- `Map.prototype.get` on the discovery map. -/
def dGet (k : String) : List (String × DeviceInfo) → Option DeviceInfo
  | [] => none
  | (k', v') :: rest => if k' = k then some v' else dGet k rest

/-- `Map.prototype.has` on the discovery map. -/
def dHas (k : String) : List (String × DeviceInfo) → Bool
  | [] => false
  | (k', _) :: rest => k' = k || dHas k rest

/-- Case-insensitive "pattern matches here" test (the `i` flag of the
discovery regexes). -/
def ciStartsWith : List Char → List Char → Bool
  | [], _ => true
  | _ :: _, [] => false
  | p :: ps, t :: ts => (p.toLower = t.toLower) && ciStartsWith ps ts

/-- `response.match(new RegExp(pat ++ "([^\r\n]+)", "i"))`: scan for the
first case-insensitive occurrence of `pat` that is followed by at least one
character other than CR/LF, and return that captured run. -/
def matchKey (pat : List Char) : List Char → Option (List Char)
  | [] => none
  | c :: ts =>
      if ciStartsWith pat (c :: ts) then
        let captured := ((c :: ts).drop pat.length).takeWhile
          (fun ch => ch != '\r' && ch != '\n')
        if captured.isEmpty then matchKey pat ts else some captured
      else matchKey pat ts

/-- Case-sensitive "pattern matches here" test. -/
def startsWithChars : List Char → List Char → Bool
  | [], _ => true
  | _ :: _, [] => false
  | p :: ps, t :: ts => (p = t) && startsWithChars ps ts

/-- `String.prototype.includes(pat)` (case-sensitive). -/
def containsSub (pat : List Char) : List Char → Bool
  | [] => pat.isEmpty
  | c :: ts => startsWithChars pat (c :: ts) || containsSub pat ts

/-- `String.prototype.replace(pat, "")` with a string pattern: remove the
first (case-sensitive) occurrence of `pat`, if any. -/
def replaceFirst (pat : List Char) : List Char → List Char
  | [] => []
  | c :: ts =>
      if startsWithChars pat (c :: ts) then (c :: ts).drop pat.length
      else c :: replaceFirst pat ts

/-- `String.prototype.split(sep)` for a one-character separator. -/
def splitOnChar (sep : Char) : List Char → List (List Char)
  | [] => [[]]
  | c :: rest =>
      let r := splitOnChar sep rest
      if c = sep then [] :: r
      else
        match r with
        | [] => [[c]]
        | x :: xs => (c :: x) :: xs

/-- The digit run consumed by `parseInt` after sign handling; `none` models
`NaN` (no digits). -/
def digitsVal (s : List Char) : Option Nat :=
  let ds := s.takeWhile Char.isDigit
  if ds.isEmpty then none
  else some (ds.foldl (fun acc c => acc * 10 + (c.toNat - 48)) 0)

/-- JavaScript `parseInt(s)` (radix 10, as used on the port field): skip
leading whitespace, optional sign, then a digit run; `none` models `NaN`.
`parseInt(undefined)` is `NaN`, modelled by the caller passing no string. -/
def parseIntJS (s : List Char) : Option Int :=
  let t := s.dropWhile (fun c =>
    c == ' ' || c == '\t' || c == '\n' || c == '\r')
  match t with
  | '-' :: rest => (digitsVal rest).map (fun n => -(n : Int))
  | '+' :: rest => (digitsVal rest).map (fun n => (n : Int))
  | _ => (digitsVal t).map (fun n => (n : Int))

/-- `Discovery.extractValue(response, key)`: first case-insensitive match of
`` `${key}: ([^\r\n]+)` ``. -/
def extractValue (resp : List Char) (key : String) : Option String :=
  (matchKey (key.toList ++ [':', ' ']) resp).map (fun l => String.mk l)

/-- `Discovery.parseResponse(response, devices)`: pull the `Location:`
header (bail out if absent), strip `yeelight://`, split `ip:port`, and —
only when the ip is not already in the map — insert a `DeviceInfo` built
from the `key: value` headers. -/
def parseResponse (resp : List Char) (devices : List (String × DeviceInfo)) :
    List (String × DeviceInfo) :=
  match matchKey ("Location: ".toList) resp with
  | none => devices
  | some loc =>
      let parts := splitOnChar ':' (replaceFirst ("yeelight://".toList) loc)
      let ip : String := String.mk (parts.headD [])
      let port : Option Int := (parts.get? 1).bind parseIntJS
      if dHas ip devices then devices
      else
        dSet ip
          { ip := ip, port := port,
            id := extractValue resp "id",
            model := extractValue resp "model",
            name := extractValue resp "name",
            firmware := extractValue resp "fw_ver",
            support := (extractValue resp "support").map
              (fun s => (splitOnChar ' ' s.toList).map String.mk),
            power := extractValue resp "power" } devices

/-- The cache-seeding step of `Discovery.discover`:
`cachedDevices.forEach((device) => devices.set(device.ip, device))`. -/
def seedCache (cache : List DeviceInfo) : List (String × DeviceInfo) :=
  cache.foldl (fun m d => dSet d.ip d m) []

/-- The live-response phase of `Discovery.discover`: each datagram whose
payload contains `"yeelight"` is fed to `parseResponse`, in arrival order. -/
def scanFold (responses : List (List Char))
    (m : List (String × DeviceInfo)) : List (String × DeviceInfo) :=
  responses.foldl
    (fun acc r =>
      if containsSub ("yeelight".toList) r then parseResponse r acc else acc)
    m

/-- The merge performed by `Discovery.discover(timeout, useCache)` for a
given wave of datagram payloads: seed from the cache when `useCache`, apply
the live responses, return `Array.from(devices.values())`. -/
def discoverMerge (useCache : Bool) (cache : List DeviceInfo)
    (responses : List (List Char)) : List DeviceInfo :=
  let init := if useCache then seedCache cache else []
  (scanFold responses init).map Prod.snd

/-- The externally triggered transitions of one `Yeelight` session:
socket establishment, transport close, a `send` call, an inbound data
chunk, and a command-timeout timer firing. -/
inductive Act where
  | connectOk
  | close
  | send (method : String) (params : List Param)
  | recv (chunk : List Char)
  | timeout (i : Nat)

/-- One session transition.  Returns the new state, the emitted events and
the command ids allocated (one for each successful `send`). -/
def stepAct (decode : List Char → Option Decoded) (st : SessionState) :
    Act → SessionState × List Event × List Nat
  | .connectOk =>
      if st.connected then (st, [], [])
      else ({ st with connected := true, hasSocket := true },
            [.connectedEv], [])
  | .close => ((handleClose st).1, (handleClose st).2, [])
  | .send m p =>
      ((sendCommand st m p).1, [],
       match (sendCommand st m p).2.2 with
       | .ok i => [i]
       | .error _ => [])
  | .recv chunk =>
      ((handleData decode st chunk).1, (handleData decode st chunk).2, [])
  | .timeout i => ((fireTimeout st i).1, (fireTimeout st i).2, [])

/-- Run a list of transitions from a state, concatenating events and
allocated ids. -/
def runTrace (decode : List Char → Option Decoded) (st : SessionState) :
    List Act → SessionState × List Event × List Nat
  | [] => (st, [], [])
  | a :: as =>
      let s1 := stepAct decode st a
      let r := runTrace decode s1.1 as
      (r.1, s1.2.1 ++ r.2.1, s1.2.2 ++ r.2.2)

/-- Is this event a per-command rejection? -/
def isRejectEv : Event → Bool
  | .rejectEv _ _ => true
  | _ => false

/-- The per-command rejection events of a trace, in order. -/
def rejectionEvents (evs : List Event) : List Event :=
  evs.filter isRejectEv

/-- The ordering asserted by the claim for connection teardown: every
pending-command rejection is surfaced before the `disconnected`
observation, i.e. once the (first) `disconnected` event has been emitted no
rejection follows. -/
def allRejectsBeforeDisconnect : List Event → Bool
  | [] => true
  | .disconnectedEv :: rest => rest.all (fun e => !isRejectEv e)
  | _ :: rest => allRejectsBeforeDisconnect rest

/-- A concrete stand-in for `JSON.parse` plus the `"method" in r` /
`"id" in r` probes, used to instantiate the decode parameter in witnesses:
it decodes one response line, one notification line, and one well-formed
JSON object that has neither a `method` nor an `id` key; everything else
fails to decode. -/
def demoDecode : List Char → Option Decoded := fun l =>
  if l = "\x7b\"id\":1,\"result\":[\"ok\"]\x7d".toList then
    some ⟨none, some 1, none⟩
  else if l = "\x7b\"method\":\"props\",\"params\":[]\x7d".toList then
    some ⟨some "props", none, none⟩
  else if l = "\x7b\"other\":1\x7d".toList then
    some ⟨none, none, none⟩
  else none

/-- First half of a response line, cut mid-token. -/
def demoChunk1 : List Char := "\x7b\"id\":1,\"re".toList

/-- Second half of the response line, followed by a complete notification
line. -/
def demoChunk2 : List Char :=
  "sult\":[\"ok\"]\x7d\n\x7b\"method\":\"props\",\"params\":[]\x7d\n".toList

/-- The UTF-8 bytes of the demo chunks (pure ASCII, so every split between
them is a character-boundary split). -/
def byteChunk1 : List Nat := demoChunk1.map Char.toNat

/-- The UTF-8 bytes of the second demo chunk. -/
def byteChunk2 : List Nat := demoChunk2.map Char.toNat

/-- The bytes of the notification line `\x7b"method":"é"\x7d` up to and
including the first byte `0xC3` of the two-byte encoding of `é`. -/
def utfChunk1 : List Nat :=
  [123, 34, 109, 101, 116, 104, 111, 100, 34, 58, 34, 195]

/-- The remaining bytes: the second byte `0xA9` of `é`, the closing quote
and brace, and the newline. -/
def utfChunk2 : List Nat := [169, 34, 125, 10]

/-- A concrete stand-in for `JSON.parse` plus the key probes on the two
texts arising from `utfChunk1`/`utfChunk2`: both the clean line
`\x7b"method":"é"\x7d` and the replacement-mangled line
`\x7b"method":"��"\x7d` are valid JSON objects with a `method`
key, whose (different) string values are exposed as the notification
method. -/
def utfDemoDecode : List Char → Option Decoded := fun l =>
  if l = "\x7b\"method\":\"é\"\x7d".toList then
    some ⟨some "é", none, none⟩
  else if l = "\x7b\"method\":\"��\"\x7d".toList then
    some ⟨some "��", none, none⟩
  else none

/-- A connected session with one pending command (id 1). -/
def onePendingState : SessionState :=
  { messageId := 1, connected := true, hasSocket := true,
    commandQueue := [(1, ⟨1, "get_prop", [.str "power"]⟩)], buffer := [] }

/-- A connected session with an empty pending table. -/
def connState : SessionState :=
  { messageId := 0, connected := true, hasSocket := true,
    commandQueue := [], buffer := [] }

/-- A cached device record for ip `10.0.0.5` (port 1). -/
def demoCachedDevice : DeviceInfo :=
  { ip := "10.0.0.5", port := some 1, id := none, model := none,
    name := none, firmware := none, support := none, power := none }

/-- A live discovery datagram advertising the same ip `10.0.0.5` on port
55443. -/
def demoResp : List Char :=
  ("HTTP/1.1 200 OK\r\nLocation: yeelight://10.0.0.5:55443\r\n" ++
   "id: 0x0000000012345678\r\nmodel: color\r\npower: on\r\n\r\n").toList

/-- The record `parseResponse` builds from `demoResp` when the ip is not
already known. -/
def demoLiveDevice : DeviceInfo :=
  { ip := "10.0.0.5", port := some 55443,
    id := some "0x0000000012345678", model := some "color",
    name := none, firmware := none, support := none, power := some "on" }

/-! ### Helper lemmas about the line framer -/

theorem breakNl_length {b l r : List Char} (h : breakNl b = some (l, r)) :
    r.length < b.length := by
  induction b generalizing l r with
  | nil => simp [breakNl] at h
  | cons c rest ih =>
      simp only [breakNl] at h
      by_cases hc : c = '\n'
      · rw [if_pos hc] at h
        simp only [Option.some.injEq, Prod.mk.injEq] at h
        obtain ⟨hl, hr⟩ := h
        subst hr
        simp
      · rw [if_neg hc] at h
        cases hb : breakNl rest with
        | none => rw [hb] at h; simp at h
        | some p =>
            rw [hb] at h
            simp only [Option.map_some', Option.some.injEq,
              Prod.mk.injEq] at h
            obtain ⟨hl, hr⟩ := h
            subst hr
            have := ih hb
            simp
            omega

theorem breakNl_append_some {s l r : List Char} (t : List Char)
    (h : breakNl s = some (l, r)) :
    breakNl (s ++ t) = some (l, r ++ t) := by
  induction s generalizing l r with
  | nil => simp [breakNl] at h
  | cons c rest ih =>
      rw [List.cons_append]
      simp only [breakNl] at h ⊢
      by_cases hc : c = '\n'
      · rw [if_pos hc] at h ⊢
        simp only [Option.some.injEq, Prod.mk.injEq] at h
        obtain ⟨hl, hr⟩ := h
        subst hl; subst hr
        rfl
      · rw [if_neg hc] at h ⊢
        cases hb : breakNl rest with
        | none => rw [hb] at h; simp at h
        | some p =>
            rw [hb] at h
            simp only [Option.map_some', Option.some.injEq,
              Prod.mk.injEq] at h
            obtain ⟨hl, hr⟩ := h
            subst hl; subst hr
            rw [ih hb]
            rfl

theorem breakNl_none_of_length_zero {b : List Char} (h : b.length = 0) :
    breakNl b = none := by
  cases b with
  | nil => rfl
  | cons c rest => simp at h

/-- A complete line followed by the newline and the rest of the stream is
framed as that line. -/
theorem breakNl_line {line : List Char} (rest : List Char)
    (h : '\n' ∉ line) :
    breakNl (line ++ '\n' :: rest) = some (line, rest) := by
  induction line with
  | nil => simp [breakNl]
  | cons c cs ih =>
      have hc : c ≠ '\n' := fun hcc => h (hcc ▸ List.mem_cons_self c cs)
      have hcs : '\n' ∉ cs := fun hm => h (List.mem_cons_of_mem c hm)
      rw [List.cons_append]
      simp only [breakNl, if_neg hc, ih hcs, Option.map_some']

/-- Once the fuel covers the buffer, the drain result no longer depends on
the exact fuel. -/
theorem drainFuel_congr (decode : List Char → Option Decoded) :
    ∀ fuel fuel' st, st.buffer.length ≤ fuel → st.buffer.length ≤ fuel' →
      drainFuel decode fuel st = drainFuel decode fuel' st := by
  intro fuel
  induction fuel with
  | zero =>
      intro fuel' st h h'
      have hb : breakNl st.buffer = none :=
        breakNl_none_of_length_zero (Nat.le_zero.mp h)
      cases fuel' with
      | zero => rfl
      | succ f' => simp [drainFuel, hb]
  | succ f ih =>
      intro fuel' st h h'
      cases fuel' with
      | zero =>
          have hb : breakNl st.buffer = none :=
            breakNl_none_of_length_zero (Nat.le_zero.mp h')
          simp [drainFuel, hb]
      | succ f' =>
          simp only [drainFuel]
          cases hb : breakNl st.buffer with
          | none => rfl
          | some p =>
              obtain ⟨line, rest⟩ := p
              have hlen := breakNl_length hb
              have h1 : rest.length ≤ f := by omega
              have h2 : rest.length ≤ f' := by omega
              have hres := ih f'
                (withBQ st rest (processLine decode st.commandQueue line).1)
                h1 h2
              simp only
              rw [hres]

/-- One-step unfolding of `drainLoop`, mirroring one iteration of the
`while` loop of `handleData`. -/
theorem drainLoop_eq (decode : List Char → Option Decoded)
    (st : SessionState) :
    drainLoop decode st =
      match breakNl st.buffer with
      | none => (st, [])
      | some (line, rest) =>
          let pl := processLine decode st.commandQueue line
          let d := drainLoop decode (withBQ st rest pl.1)
          (d.1, pl.2 ++ d.2) := by
  unfold drainLoop
  cases hb : breakNl st.buffer with
  | none =>
      cases hl : st.buffer.length with
      | zero => rfl
      | succ n => simp [drainFuel, hl, hb]
  | some p =>
      obtain ⟨line, rest⟩ := p
      have hlen := breakNl_length hb
      cases hl : st.buffer.length with
      | zero => omega
      | succ n =>
          simp only [drainFuel, hb]
          have h1 : rest.length ≤ n := by omega
          have hres := drainFuel_congr decode n rest.length
            (withBQ st rest (processLine decode st.commandQueue line).1)
            h1 (Nat.le_refl _)
          rw [hres]
          simp [withBQ]

/-- `drainLoop` on a buffer with no complete line does nothing. -/
theorem drainLoop_none (decode : List Char → Option Decoded)
    (st : SessionState) (hb : breakNl st.buffer = none) :
    drainLoop decode st = (st, []) := by
  rw [drainLoop_eq decode st, hb]

/-- `drainLoop` on a buffer holding a complete line processes that line and
continues on the rest. -/
theorem drainLoop_some (decode : List Char → Option Decoded)
    (st : SessionState) (line rest : List Char)
    (hb : breakNl st.buffer = some (line, rest)) :
    drainLoop decode st =
      ((drainLoop decode
          (withBQ st rest (processLine decode st.commandQueue line).1)).1,
       (processLine decode st.commandQueue line).2 ++
         (drainLoop decode
           (withBQ st rest
             (processLine decode st.commandQueue line).1)).2) := by
  rw [drainLoop_eq decode st, hb]

/-- Draining after appending `extra` to the buffer is draining first, then
draining the leftover buffer extended by `extra`: the drain loop commutes
with arbitrary chunk boundaries. -/
theorem drainLoop_append (decode : List Char → Option Decoded)
    (st : SessionState) (extra : List Char) :
    drainLoop decode (withBQ st (st.buffer ++ extra) st.commandQueue) =
      ((drainLoop decode (withBQ (drainLoop decode st).1 ((drainLoop decode st).1.buffer ++ extra) (drainLoop decode st).1.commandQueue)).1,
       (drainLoop decode st).2 ++
         (drainLoop decode (withBQ (drainLoop decode st).1 ((drainLoop decode st).1.buffer ++ extra) (drainLoop decode st).1.commandQueue)).2) := by
  suffices H : ∀ (n : Nat) (st : SessionState) (extra : List Char),
      st.buffer.length = n →
      drainLoop decode (withBQ st (st.buffer ++ extra) st.commandQueue) =
        ((drainLoop decode (withBQ (drainLoop decode st).1 ((drainLoop decode st).1.buffer ++ extra) (drainLoop decode st).1.commandQueue)).1,
         (drainLoop decode st).2 ++
           (drainLoop decode (withBQ (drainLoop decode st).1 ((drainLoop decode st).1.buffer ++ extra) (drainLoop decode st).1.commandQueue)).2) by
    exact H st.buffer.length st extra rfl
  intro n
  induction n using Nat.strong_induction_on with
  | _ n ih =>
    intro st extra hn
    cases hb : breakNl st.buffer with
    | none =>
        have hst : drainLoop decode st = (st, []) :=
          drainLoop_none decode st hb
        rw [hst]
        simp [withBQ]
    | some p =>
        obtain ⟨line, rest⟩ := p
        have hlt : rest.length < n := hn ▸ breakNl_length hb
        have hb2 : breakNl (st.buffer ++ extra) =
            some (line, rest ++ extra) := breakNl_append_some extra hb
        have hst := drainLoop_some decode st line rest hb
        have hlhs : drainLoop decode (withBQ st (st.buffer ++ extra) st.commandQueue) =
            ((drainLoop decode (withBQ st (rest ++ extra) (processLine decode st.commandQueue line).1)).1,
             (processLine decode st.commandQueue line).2 ++
               (drainLoop decode (withBQ st (rest ++ extra) (processLine decode st.commandQueue line).1)).2) :=
          drainLoop_some decode
            (withBQ st (st.buffer ++ extra) st.commandQueue)
            line (rest ++ extra) hb2
        have hih : drainLoop decode (withBQ st (rest ++ extra) (processLine decode st.commandQueue line).1) =
            ((drainLoop decode (withBQ (drainLoop decode (withBQ st rest (processLine decode st.commandQueue line).1)).1 ((drainLoop decode (withBQ st rest (processLine decode st.commandQueue line).1)).1.buffer ++ extra) (drainLoop decode (withBQ st rest (processLine decode st.commandQueue line).1)).1.commandQueue)).1,
             (drainLoop decode (withBQ st rest (processLine decode st.commandQueue line).1)).2 ++
               (drainLoop decode (withBQ (drainLoop decode (withBQ st rest (processLine decode st.commandQueue line).1)).1 ((drainLoop decode (withBQ st rest (processLine decode st.commandQueue line).1)).1.buffer ++ extra) (drainLoop decode (withBQ st rest (processLine decode st.commandQueue line).1)).1.commandQueue)).2) :=
          ih rest.length hlt
            (withBQ st rest (processLine decode st.commandQueue line).1)
            extra rfl
        rw [hlhs, hih, hst]
        simp

/-- The drain loop never touches the id counter, the connected flag or the
socket. -/
theorem drainFuel_preserves (decode : List Char → Option Decoded) :
    ∀ fuel st,
      (drainFuel decode fuel st).1.messageId = st.messageId ∧
      (drainFuel decode fuel st).1.connected = st.connected ∧
      (drainFuel decode fuel st).1.hasSocket = st.hasSocket := by
  intro fuel
  induction fuel with
  | zero => intro st; exact ⟨rfl, rfl, rfl⟩
  | succ f ih =>
      intro st
      simp only [drainFuel]
      cases hb : breakNl st.buffer with
      | none => exact ⟨rfl, rfl, rfl⟩
      | some pr =>
          obtain ⟨line, rest⟩ := pr
          simp only
          exact ih (withBQ st rest (processLine decode st.commandQueue line).1)

/-- After draining, the leftover buffer holds no complete line. -/
theorem drainFuel_buffer_none (decode : List Char → Option Decoded) :
    ∀ fuel st, st.buffer.length ≤ fuel →
      breakNl (drainFuel decode fuel st).1.buffer = none := by
  intro fuel
  induction fuel with
  | zero =>
      intro st h
      exact breakNl_none_of_length_zero (Nat.le_zero.mp h)
  | succ f ih =>
      intro st h
      simp only [drainFuel]
      cases hb : breakNl st.buffer with
      | none => exact hb
      | some pr =>
          obtain ⟨line, rest⟩ := pr
          have hlen := breakNl_length hb
          simp only
          exact ih (withBQ st rest (processLine decode st.commandQueue line).1)
            (by simp [withBQ]; omega)

/-- After draining, the leftover buffer holds no complete line. -/
theorem drainLoop_buffer_none (decode : List Char → Option Decoded)
    (st : SessionState) :
    breakNl (drainLoop decode st).1.buffer = none :=
  drainFuel_buffer_none decode st.buffer.length st (Nat.le_refl _)

/-- `qDelete` only removes entries. -/
theorem mem_qDelete {k : Nat} {q : List (Nat × CommandOptions)}
    {p : Nat × CommandOptions} (hp : p ∈ qDelete k q) : p ∈ q := by
  induction q with
  | nil => simp [qDelete] at hp
  | cons kv rest ih =>
      obtain ⟨k', v'⟩ := kv
      simp only [qDelete] at hp
      by_cases hk : k' = k
      · rw [if_pos hk] at hp
        exact List.mem_cons_of_mem _ hp
      · rw [if_neg hk] at hp
        rcases List.mem_cons.mp hp with h | h
        · exact h ▸ List.mem_cons_self _ _
        · exact List.mem_cons_of_mem _ (ih h)

/-- Processing one inbound line only ever removes pending entries. -/
theorem processLine_queue_sub (decode : List Char → Option Decoded)
    (queue : List (Nat × CommandOptions)) (line : List Char) :
    ∀ p ∈ (processLine decode queue line).1, p ∈ queue := by
  intro p hp
  cases hd : decode line with
  | none => simp [processLine, hd] at hp; exact hp
  | some d =>
      cases hmm : d.method? with
      | some m => simp [processLine, hd, hmm] at hp; exact hp
      | none =>
          cases hi : d.id? with
          | none => simp [processLine, hd, hmm, hi] at hp; exact hp
          | some i =>
              cases hg : qGet i queue with
              | none => simp [processLine, hd, hmm, hi, hg] at hp; exact hp
              | some cmd =>
                  cases he : d.error? with
                  | some pe =>
                      obtain ⟨code, msg⟩ := pe
                      simp [processLine, hd, hmm, hi, hg, he] at hp
                      exact mem_qDelete hp
                  | none =>
                      simp [processLine, hd, hmm, hi, hg, he] at hp
                      exact mem_qDelete hp

/-- The drain loop only ever removes pending entries. -/
theorem drainFuel_queue_sub (decode : List Char → Option Decoded) :
    ∀ fuel st p, p ∈ (drainFuel decode fuel st).1.commandQueue →
      p ∈ st.commandQueue := by
  intro fuel
  induction fuel with
  | zero => intro st p hp; exact hp
  | succ f ih =>
      intro st p hp
      simp only [drainFuel] at hp
      cases hb : breakNl st.buffer with
      | none => rw [hb] at hp; exact hp
      | some pr =>
          obtain ⟨line, rest⟩ := pr
          rw [hb] at hp
          simp only at hp
          exact processLine_queue_sub decode st.commandQueue line p
            (ih (withBQ st rest (processLine decode st.commandQueue line).1)
              p hp)

/-- Feeding chunks one at a time equals feeding their concatenation, as
long as the starting buffer holds no complete line. -/
theorem handleChunks_flatten (decode : List Char → Option Decoded) :
    ∀ (cs : List (List Char)) (st : SessionState),
      breakNl st.buffer = none →
      handleChunks decode st cs = handleData decode st cs.flatten := by
  intro cs
  induction cs with
  | nil =>
      intro st hb
      have h1 : withBQ st (st.buffer ++ []) st.commandQueue = st := by
        rw [List.append_nil]
        rfl
      show (st, []) = drainLoop decode (withBQ st (st.buffer ++ List.flatten []) st.commandQueue)
      rw [show List.flatten ([] : List (List Char)) = [] from rfl, h1,
        drainLoop_none decode st hb]
  | cons c cs' ih =>
      intro st hb
      have hbn : breakNl (handleData decode st c).1.buffer = none :=
        drainLoop_buffer_none decode
          (withBQ st (st.buffer ++ c) st.commandQueue)
      have hIH := ih (handleData decode st c).1 hbn
      have happ : handleData decode st (c ++ cs'.flatten) =
          ((handleData decode (handleData decode st c).1 cs'.flatten).1,
           (handleData decode st c).2 ++
             (handleData decode (handleData decode st c).1 cs'.flatten).2) := by
        show drainLoop decode (withBQ st (st.buffer ++ (c ++ cs'.flatten)) st.commandQueue) = _
        rw [show st.buffer ++ (c ++ cs'.flatten) = (st.buffer ++ c) ++ cs'.flatten from (List.append_assoc _ _ _).symm]
        exact drainLoop_append decode
          (withBQ st (st.buffer ++ c) st.commandQueue) cs'.flatten
      show ((handleChunks decode (handleData decode st c).1 cs').1,
            (handleData decode st c).2 ++
              (handleChunks decode (handleData decode st c).1 cs').2) =
          handleData decode st ((c :: cs').flatten)
      rw [hIH, List.flatten_cons, happ]

/-! ### Helper lemmas about the pending table and the trace machine -/

/-- Membership after `qSet`: the new binding or an old one. -/
theorem mem_qSet {k : Nat} {v : CommandOptions}
    {q : List (Nat × CommandOptions)} {p : Nat × CommandOptions}
    (hp : p ∈ qSet k v q) : p = (k, v) ∨ p ∈ q := by
  induction q with
  | nil => simpa [qSet] using hp
  | cons kv rest ih =>
      obtain ⟨k', v'⟩ := kv
      simp only [qSet] at hp
      by_cases hk : k' = k
      · rw [if_pos hk] at hp
        rcases List.mem_cons.mp hp with h | h
        · exact Or.inl h
        · exact Or.inr (List.mem_cons_of_mem _ h)
      · rw [if_neg hk] at hp
        rcases List.mem_cons.mp hp with h | h
        · exact Or.inr (h ▸ List.mem_cons_self _ _)
        · rcases ih h with h2 | h2
          · exact Or.inl h2
          · exact Or.inr (List.mem_cons_of_mem _ h2)

/-- Deleting one id leaves lookups of every other id unchanged. -/
theorem qGet_qDelete_ne {i j : Nat} (hne : j ≠ i) :
    ∀ q, qGet j (qDelete i q) = qGet j q := by
  intro q
  induction q with
  | nil => rfl
  | cons kv rest ih =>
      obtain ⟨k', v'⟩ := kv
      simp only [qDelete]
      by_cases hk : k' = i
      · rw [if_pos hk]
        have hkj : ¬k' = j := by omega
        simp only [qGet, if_neg hkj]
      · rw [if_neg hk]
        simp only [qGet]
        by_cases hkj : k' = j
        · rw [if_pos hkj, if_pos hkj]
        · rw [if_neg hkj, if_neg hkj, ih]

/-- Each transition either keeps the id counter (allocating nothing) or
bumps it by one (allocating exactly that id). -/
theorem stepAct_messageId (decode : List Char → Option Decoded)
    (st : SessionState) (a : Act) :
    ((stepAct decode st a).1.messageId = st.messageId ∧
      (stepAct decode st a).2.2 = []) ∨
    ((stepAct decode st a).1.messageId = st.messageId + 1 ∧
      (stepAct decode st a).2.2 = [st.messageId + 1]) := by
  cases a with
  | connectOk =>
      by_cases hc : st.connected
      · left; simp [stepAct, hc]
      · left; simp [stepAct, hc]
  | close => left; exact ⟨rfl, rfl⟩
  | send m p =>
      by_cases hc : (!st.connected || !st.hasSocket) = true
      · left
        simp [stepAct, sendCommand, hc]
      · right
        simp [stepAct, sendCommand, hc]
  | recv chunk =>
      left
      exact ⟨(drainFuel_preserves decode
        (withBQ st (st.buffer ++ chunk) st.commandQueue).buffer.length
        (withBQ st (st.buffer ++ chunk) st.commandQueue)).1, rfl⟩
  | timeout i =>
      left
      cases hg : qGet i st.commandQueue with
      | none => simp [stepAct, fireTimeout, hg]
      | some c => simp [stepAct, fireTimeout, hg]

/-- Each transition preserves the invariant that every pending id is at
most the current counter value. -/
theorem stepAct_pendingBound (decode : List Char → Option Decoded)
    (st : SessionState) (a : Act)
    (hb : ∀ p ∈ st.commandQueue, p.1 ≤ st.messageId) :
    ∀ p ∈ (stepAct decode st a).1.commandQueue,
      p.1 ≤ (stepAct decode st a).1.messageId := by
  cases a with
  | connectOk =>
      by_cases hc : st.connected
      · simpa [stepAct, hc] using hb
      · simpa [stepAct, hc] using hb
  | close =>
      intro p hp
      simp [stepAct, handleClose] at hp
  | send m pr =>
      by_cases hc : (!st.connected || !st.hasSocket) = true
      · intro p hp
        simp only [stepAct, sendCommand, if_pos hc] at hp ⊢
        exact hb p hp
      · intro p hp
        simp only [stepAct, sendCommand, if_neg hc] at hp ⊢
        rcases mem_qSet hp with h | h
        · rw [h]
        · exact Nat.le_trans (hb p h) (Nat.le_succ _)
  | recv chunk =>
      intro p hp
      have h1 : p ∈ st.commandQueue :=
        drainFuel_queue_sub decode
          (withBQ st (st.buffer ++ chunk) st.commandQueue).buffer.length
          (withBQ st (st.buffer ++ chunk) st.commandQueue) p hp
      have h2 := (drainFuel_preserves decode
        (withBQ st (st.buffer ++ chunk) st.commandQueue).buffer.length
        (withBQ st (st.buffer ++ chunk) st.commandQueue)).1
      show p.1 ≤ (handleData decode st chunk).1.messageId
      calc p.1 ≤ st.messageId := hb p h1
        _ = (handleData decode st chunk).1.messageId := h2.symm
  | timeout i =>
      intro p hp
      cases hg : qGet i st.commandQueue with
      | none =>
          simp only [stepAct, fireTimeout, hg] at hp ⊢
          exact hb p hp
      | some c =>
          simp only [stepAct, fireTimeout, hg] at hp ⊢
          exact hb p (mem_qDelete hp)

/-- Along any trace the allocated ids are exactly the consecutive integers
from one past the starting counter up to the final counter value. -/
theorem runTrace_ids (decode : List Char → Option Decoded) :
    ∀ (acts : List Act) (st : SessionState),
      st.messageId ≤ (runTrace decode st acts).1.messageId ∧
      (runTrace decode st acts).2.2 =
        List.range' (st.messageId + 1)
          ((runTrace decode st acts).1.messageId - st.messageId) := by
  intro acts
  induction acts with
  | nil => intro st; exact ⟨Nat.le_refl _, by simp [runTrace]⟩
  | cons a as ih =>
      intro st
      obtain ⟨hle, hids⟩ := ih (stepAct decode st a).1
      rcases stepAct_messageId decode st a with ⟨h1, h2⟩ | ⟨h1, h2⟩
      · constructor
        · show st.messageId ≤
            (runTrace decode (stepAct decode st a).1 as).1.messageId
          omega
        · show (stepAct decode st a).2.2 ++
              (runTrace decode (stepAct decode st a).1 as).2.2 =
            List.range' (st.messageId + 1)
              ((runTrace decode (stepAct decode st a).1 as).1.messageId -
                st.messageId)
          rw [h2, List.nil_append, hids, h1]
      · constructor
        · show st.messageId ≤
            (runTrace decode (stepAct decode st a).1 as).1.messageId
          omega
        · show (stepAct decode st a).2.2 ++
              (runTrace decode (stepAct decode st a).1 as).2.2 =
            List.range' (st.messageId + 1)
              ((runTrace decode (stepAct decode st a).1 as).1.messageId -
                st.messageId)
          rw [h2, hids, h1]
          have hfin : (runTrace decode (stepAct decode st a).1 as).1.messageId
              - st.messageId =
              ((runTrace decode (stepAct decode st a).1 as).1.messageId -
                (st.messageId + 1)) + 1 := by omega
          rw [hfin, List.range'_succ]
          rfl

/-- The pending-ids-bounded-by-counter invariant holds along any trace. -/
theorem runTrace_pendingBound (decode : List Char → Option Decoded) :
    ∀ (acts : List Act) (st : SessionState),
      (∀ p ∈ st.commandQueue, p.1 ≤ st.messageId) →
      ∀ p ∈ (runTrace decode st acts).1.commandQueue,
        p.1 ≤ (runTrace decode st acts).1.messageId := by
  intro acts
  induction acts with
  | nil => intro st h; exact h
  | cons a as ih =>
      intro st h
      exact ih (stepAct decode st a).1 (stepAct_pendingBound decode st a h)

/-! ### Helper lemmas about the discovery merge -/

/-- Setting one ip leaves lookups of every other ip unchanged. -/
theorem dGet_dSet_ne {k k' : String} (hne : k ≠ k') (v : DeviceInfo) :
    ∀ m, dGet k (dSet k' v m) = dGet k m := by
  intro m
  induction m with
  | nil =>
      simp only [dSet, dGet]
      rw [if_neg (fun h : k' = k => hne h.symm)]
  | cons kv rest ih =>
      obtain ⟨k0, v0⟩ := kv
      simp only [dSet]
      by_cases h0 : k0 = k'
      · rw [if_pos h0]
        simp only [dGet]
        rw [if_neg (fun h : k' = k => hne h.symm),
          if_neg (fun h : k0 = k => hne (h ▸ h0 ▸ rfl))]
      · rw [if_neg h0]
        simp only [dGet]
        by_cases hk : k0 = k
        · rw [if_pos hk, if_pos hk]
        · rw [if_neg hk, if_neg hk, ih]

/-- `dHas` answers whether `dGet` finds a binding. -/
theorem dHas_eq_isSome (k : String) :
    ∀ m, dHas k m = (dGet k m).isSome := by
  intro m
  induction m with
  | nil => rfl
  | cons kv rest ih =>
      obtain ⟨k0, v0⟩ := kv
      simp only [dHas, dGet]
      by_cases hk : k0 = k
      · simp [hk]
      · simp [hk, ih]

/-- A successful lookup is a member of the association list. -/
theorem dGet_mem {k : String} {v : DeviceInfo} :
    ∀ m, dGet k m = some v → (k, v) ∈ m := by
  intro m
  induction m with
  | nil => intro h; simp [dGet] at h
  | cons kv rest ih =>
      obtain ⟨k0, v0⟩ := kv
      intro h
      simp only [dGet] at h
      by_cases hk : k0 = k
      · rw [if_pos hk] at h
        obtain rfl : v0 = v := by simpa using h
        subst hk
        exact List.mem_cons_self _ _
      · rw [if_neg hk] at h
        exact List.mem_cons_of_mem _ (ih h)

/-- `parseResponse` never overwrites an existing binding: a live response
for an already-known ip is dropped. -/
theorem parseResponse_preserves (r : List Char)
    (m : List (String × DeviceInfo)) (ip : String) (v : DeviceInfo)
    (h : dGet ip m = some v) : dGet ip (parseResponse r m) = some v := by
  unfold parseResponse
  cases hm : matchKey ("Location: ".toList) r with
  | none => exact h
  | some loc =>
      simp only
      split
      · exact h
      · rename_i hhas
        have hip : dHas ip m = true := by
          rw [dHas_eq_isSome, h]
          rfl
        have hne : ip ≠ String.mk ((splitOnChar ':'
            (replaceFirst ("yeelight://".toList) loc)).headD []) :=
          fun he => hhas (he ▸ hip)
        rw [dGet_dSet_ne hne _ m]
        exact h

/-- The whole live-response phase never overwrites an existing binding. -/
theorem scanFold_preserves :
    ∀ (responses : List (List Char)) (m : List (String × DeviceInfo))
      (ip : String) (v : DeviceInfo),
      dGet ip m = some v → dGet ip (scanFold responses m) = some v := by
  intro responses
  induction responses with
  | nil => intro m ip v h; exact h
  | cons r rs ih =>
      intro m ip v h
      show dGet ip (scanFold rs
        (if containsSub ("yeelight".toList) r then parseResponse r m
         else m)) = some v
      split
      · exact ih _ ip v (parseResponse_preserves r m ip v h)
      · exact ih _ ip v h

/-- Processing a chunk that starts (on an empty buffer) with one complete
line: the line is processed first, then the remaining stream as if it had
arrived on its own. -/
theorem handleData_first_line (decode : List Char → Option Decoded)
    (st : SessionState) (line rest : List Char)
    (hbuf : st.buffer = []) (hnl : '\n' ∉ line) :
    handleData decode st (line ++ '\n' :: rest) =
      ((handleData decode
          (withBQ st [] (processLine decode st.commandQueue line).1) rest).1,
       (processLine decode st.commandQueue line).2 ++
         (handleData decode
           (withBQ st [] (processLine decode st.commandQueue line).1)
           rest).2) := by
  have h0 : withBQ st (st.buffer ++ (line ++ '\n' :: rest)) st.commandQueue =
      withBQ st (line ++ '\n' :: rest) st.commandQueue := by
    rw [hbuf]
    rfl
  show drainLoop decode
      (withBQ st (st.buffer ++ (line ++ '\n' :: rest)) st.commandQueue) = _
  rw [h0]
  exact drainLoop_some decode
    (withBQ st (line ++ '\n' :: rest) st.commandQueue) line rest
    (breakNl_line rest hnl)

/-- Running the decoder over an append is running it over the two parts in
sequence, threading the state. -/
theorem utf8Consume_append :
    ∀ (a : List Nat) (st : DecState) (b : List Nat),
      utf8Consume st (a ++ b) =
        ((utf8Consume (utf8Consume st a).1 b).1,
         (utf8Consume st a).2 ++ (utf8Consume (utf8Consume st a).1 b).2) := by
  intro a
  induction a with
  | nil => intro st b; simp [utf8Consume]
  | cons x xs ih =>
      intro st b
      show ((utf8Consume (utf8Step st x).1 (xs ++ b)).1,
            (utf8Step st x).2 ++
              (utf8Consume (utf8Step st x).1 (xs ++ b)).2) = _
      rw [ih (utf8Step st x).1 b]
      simp [utf8Consume, List.append_assoc]

/-- If a byte list leaves the decoder back at a character boundary, the
per-chunk decode distributes over appending: decoding the two parts
separately equals decoding the whole. -/
theorem utf8Decode_append_aligned (a b : List Nat)
    (h : (utf8Consume DecState.start a).1 = DecState.start) :
    utf8Decode (a ++ b) = utf8Decode a ++ utf8Decode b := by
  unfold utf8Decode
  rw [utf8Consume_append a DecState.start b, h]
  simp [h]

/-- Per-chunk decoding of boundary-aligned chunks equals decoding their
concatenation. -/
theorem utf8Decode_flatten (cs : List (List Nat))
    (h : ∀ c ∈ cs, (utf8Consume DecState.start c).1 = DecState.start) :
    utf8Decode cs.flatten = (cs.map utf8Decode).flatten := by
  induction cs with
  | nil => rfl
  | cons c cs' ih =>
      rw [List.flatten_cons, List.map_cons, List.flatten_cons,
        utf8Decode_append_aligned c cs'.flatten (h c (List.mem_cons_self _ _)),
        ih (fun c' hc' => h c' (List.mem_cons_of_mem _ hc'))]

/-- Byte-level chunk delivery is text-level chunk delivery of the per-chunk
decodes. -/
theorem handleChunksBytes_map (decode : List Char → Option Decoded) :
    ∀ (cs : List (List Nat)) (st : SessionState),
      handleChunksBytes decode st cs =
        handleChunks decode st (cs.map utf8Decode) := by
  intro cs
  induction cs with
  | nil => intro st; rfl
  | cons c cs' ih =>
      intro st
      show ((handleChunksBytes decode (handleDataBytes decode st c).1 cs').1,
            (handleDataBytes decode st c).2 ++
              (handleChunksBytes decode
                (handleDataBytes decode st c).1 cs').2) =
        handleChunks decode st (utf8Decode c :: cs'.map utf8Decode)
      rw [ih (handleDataBytes decode st c).1]
      rfl

/-! ### The claims -/

/-- C1 (amended): with `useCache` on, `discover` seeds its result map from
the cache first, and a live multicast response never overwrites an existing
record: the record of an ip present in the seeded map survives the whole
live-response phase unchanged and is among the returned devices.  (A live
response inserts a record only when its ip is absent from the map — the
opposite of the claimed live-over-cache precedence.) -/
theorem C1_amended_cache_precedence (cache : List DeviceInfo)
    (responses : List (List Char)) (ip : String) (v : DeviceInfo)
    (h : dGet ip (seedCache cache) = some v) :
    dGet ip (scanFold responses (seedCache cache)) = some v ∧
    v ∈ discoverMerge true cache responses := by
  refine ⟨scanFold_preserves responses _ ip v h, ?_⟩
  have hmem := dGet_mem _ (scanFold_preserves responses _ ip v h)
  show v ∈ (scanFold responses (seedCache cache)).map Prod.snd
  exact List.mem_map_of_mem Prod.snd hmem

/-- C1 witness: the cached record for ip `10.0.0.5` survives the live
response `demoResp` for the same ip. -/
theorem C1_witness :
    dGet "10.0.0.5" (seedCache [demoCachedDevice]) =
      some demoCachedDevice ∧
    (dGet "10.0.0.5" (scanFold [demoResp] (seedCache [demoCachedDevice])) =
        some demoCachedDevice ∧
      demoCachedDevice ∈ discoverMerge true [demoCachedDevice] [demoResp]) :=
  ⟨by decide,
   C1_amended_cache_precedence [demoCachedDevice] [demoResp] "10.0.0.5"
     demoCachedDevice (by decide)⟩

/-- C1 counterexample: the live response advertising port 55443 for ip
`10.0.0.5` is well-formed (alone it yields the live record), yet when the
cache already holds a record for that ip (port 1) the scan returns the
cached record unchanged — the live response does not take precedence. -/
theorem C1_counterexample :
    discoverMerge false [demoCachedDevice] [demoResp] = [demoLiveDevice] ∧
    discoverMerge true [demoCachedDevice] [demoResp] = [demoCachedDevice] ∧
    demoLiveDevice.port = some 55443 ∧ demoCachedDevice.port = some 1 := by
  refine ⟨?_, ?_, rfl, rfl⟩ <;> decide

/-- C2 (amended): over one session object's lifetime the allocated command
ids are exactly `[1, 2, ..., messageId]` — strictly increasing consecutive
integers starting at 1 — and every pending id is at most the current
counter, so the next allocation can never collide with a pending command.
The counter is not reset by a transport close, so after a reconnect the id
sequence continues rather than restarting at 1 (see the counterexample). -/
theorem C2_amended_ids_monotonic (decode : List Char → Option Decoded)
    (acts : List Act) :
    (runTrace decode initState acts).2.2 =
      List.range' 1 (runTrace decode initState acts).1.messageId ∧
    ∀ p ∈ (runTrace decode initState acts).1.commandQueue,
      p.1 ≤ (runTrace decode initState acts).1.messageId := by
  constructor
  · have h := (runTrace_ids decode acts initState).2
    simpa [initState] using h
  · refine runTrace_pendingBound decode acts initState ?_
    intro p hp
    simp [initState] at hp

/-- C2 witness: a connect followed by one send allocates exactly `[1]`. -/
theorem C2_witness :
    (runTrace demoDecode initState
        [Act.connectOk, Act.send "set_power" []]).2.2 =
      List.range' 1 (runTrace demoDecode initState
        [Act.connectOk, Act.send "set_power" []]).1.messageId ∧
    ∀ p ∈ (runTrace demoDecode initState
        [Act.connectOk, Act.send "set_power" []]).1.commandQueue,
      p.1 ≤ (runTrace demoDecode initState
        [Act.connectOk, Act.send "set_power" []]).1.messageId :=
  C2_amended_ids_monotonic demoDecode [Act.connectOk, Act.send "set_power" []]

/-- C2 counterexample: connect, send (id 1), transport close, reconnect —
the session is connected again with an empty pending table, yet the first
send of this second connection allocates id 2, so that connection's id
sequence does not start at 1. -/
theorem C2_counterexample :
    (runTrace demoDecode initState [Act.connectOk, Act.send "get_prop" [], Act.close, Act.connectOk]).1.connected = true ∧
    (runTrace demoDecode initState [Act.connectOk, Act.send "get_prop" [], Act.close, Act.connectOk]).1.commandQueue = [] ∧
    (runTrace demoDecode (runTrace demoDecode initState [Act.connectOk, Act.send "get_prop" [], Act.close, Act.connectOk]).1 [Act.send "get_prop" []]).2.2 = [2] := by
  refine ⟨?_, ?_, ?_⟩ <;> decide

/-- C3: tearing down the connection with N pending commands rejects exactly
those N — one `Connection closed` rejection per pending entry, in table
order — and leaves the pending table empty. -/
theorem C3_close_rejects_exactly_pending (st : SessionState) :
    (handleClose st).1.commandQueue = [] ∧
    rejectionEvents (handleClose st).2 =
      st.commandQueue.map (fun p => Event.rejectEv p.1 connectionClosedErr) ∧
    (rejectionEvents (handleClose st).2).length =
      st.commandQueue.length := by
  have key : ∀ q : List (Nat × CommandOptions),
      List.filter isRejectEv
        (q.map (fun p => Event.rejectEv p.1 connectionClosedErr)) =
        q.map (fun p => Event.rejectEv p.1 connectionClosedErr) := by
    intro q
    induction q with
    | nil => rfl
    | cons p rest ih => simp [isRejectEv, ih]
  have h2 : rejectionEvents (handleClose st).2 =
      st.commandQueue.map
        (fun p => Event.rejectEv p.1 connectionClosedErr) := by
    show List.filter isRejectEv (Event.disconnectedEv ::
        st.commandQueue.map
          (fun p => Event.rejectEv p.1 connectionClosedErr)) = _
    rw [List.filter_cons_of_neg]
    · exact key st.commandQueue
    · simp [isRejectEv]
  exact ⟨rfl, h2, by rw [h2, List.length_map]⟩

/-- C4 (amended): every transport close drives the state to disconnected
and empties the pending table, but the `disconnected` observation is
surfaced first and the pending-command rejections follow it — the reverse
of the claimed order. -/
theorem C4_amended_disconnected_surfaced_first (st : SessionState) :
    (handleClose st).1.connected = false ∧
    (handleClose st).1.commandQueue = [] ∧
    (handleClose st).2.head? = some Event.disconnectedEv ∧
    (handleClose st).2.tail =
      st.commandQueue.map (fun p => Event.rejectEv p.1 connectionClosedErr) :=
  ⟨rfl, rfl, rfl, rfl⟩

/-- C4 counterexample: with one pending command, the close handler's event
trace has the rejection after the `disconnected` observation, not before
it. -/
theorem C4_counterexample :
    allRejectsBeforeDisconnect (handleClose onePendingState).2 = false := rfl

/-- C5 (amended): splitting an inbound byte sequence into chunks whose
delivery boundaries all fall on UTF-8 character boundaries (each chunk
leaves the decoder back at `start`) and feeding the chunks to the framer in
order yields exactly the same final state and the same parsed messages, in
the same order, as delivering the whole sequence in one chunk.  For a
boundary inside a multi-byte character the invariance fails: the per-chunk
`data.toString()` turns each partial sequence into U+FFFD, changing the
buffered text and hence the parsed messages (see the counterexample). -/
theorem C5_amended_boundary_chunking (decode : List Char → Option Decoded)
    (chunks : List (List Nat)) (st : SessionState)
    (hbuf : st.buffer = [])
    (hvalid : ∀ c ∈ chunks, chunkAligned c = true) :
    handleChunksBytes decode st chunks =
      handleDataBytes decode st chunks.flatten := by
  rw [handleChunksBytes_map decode chunks st,
    handleChunks_flatten decode (chunks.map utf8Decode) st
      (by rw [hbuf]; rfl)]
  show handleData decode st (chunks.map utf8Decode).flatten =
    handleData decode st (utf8Decode chunks.flatten)
  rw [utf8Decode_flatten chunks
    (fun c hc => of_decide_eq_true (hvalid c hc))]

/-- C5 witness: an ASCII response line split mid-token across two
deliveries, followed by a notification line — every boundary is a character
boundary, and the chunked parse equals the whole-delivery parse. -/
theorem C5_witness :
    initState.buffer = ([] : List Char) ∧
    (∀ c ∈ [byteChunk1, byteChunk2], chunkAligned c = true) ∧
    handleChunksBytes demoDecode initState [byteChunk1, byteChunk2] =
      handleDataBytes demoDecode initState
        ([byteChunk1, byteChunk2].flatten) :=
  ⟨rfl, by decide,
   C5_amended_boundary_chunking demoDecode [byteChunk1, byteChunk2]
     initState rfl (by decide)⟩

/-- C5 counterexample: the notification line `\x7b"method":"é"\x7d` with
the delivery boundary between the two bytes `0xC3 0xA9` of `é`.  Delivered
whole, the line parses with method `é`; delivered as two chunks, each
partial byte becomes U+FFFD in the buffer (the per-chunk `data.toString()`
keeps no decoder state across chunks), so the parsed notification carries a
different method string — the two deliveries do not yield the same parsed
messages. -/
theorem C5_counterexample :
    handleChunksBytes utfDemoDecode connState [utfChunk1, utfChunk2] ≠
      handleDataBytes utfDemoDecode connState
        ([utfChunk1, utfChunk2].flatten) ∧
    (handleChunksBytes utfDemoDecode connState [utfChunk1, utfChunk2]).2 =
      [Event.notificationEv ⟨some "��", none, none⟩] ∧
    (handleDataBytes utfDemoDecode connState
        ([utfChunk1, utfChunk2].flatten)).2 =
      [Event.notificationEv ⟨some "é", none, none⟩] := by
  refine ⟨?_, ?_, ?_⟩ <;> decide

/-- C6 (amended): a complete line that fails to decode is reported to the
diagnostic sink (`logger.error`) and discarded; a complete line that
decodes to neither the notification shape nor the response shape is
silently discarded with no diagnostic report; in both cases the pending
table is untouched, the connection stays up, and the subsequent stream is
processed exactly as if delivered alone. -/
theorem C6_amended_invalid_line_handling
    (decode : List Char → Option Decoded) (st : SessionState)
    (bad rest : List Char) (hbuf : st.buffer = []) (hnl : '\n' ∉ bad) :
    (decode bad = none →
      handleData decode st (bad ++ '\n' :: rest) =
        ((handleData decode st rest).1,
         Event.logErrorEv "Failed to parse response" ::
           (handleData decode st rest).2)) ∧
    (∀ d, decode bad = some d → d.method? = none → d.id? = none →
      handleData decode st (bad ++ '\n' :: rest) =
        handleData decode st rest) ∧
    (handleData decode st (bad ++ '\n' :: rest)).1.connected =
      st.connected := by
  have hw : withBQ st [] st.commandQueue = st := by
    rw [← hbuf]
    rfl
  have hstep := handleData_first_line decode st bad rest hbuf hnl
  refine ⟨?_, ?_, ?_⟩
  · intro hd
    have hq : processLine decode st.commandQueue bad =
        (st.commandQueue, [Event.logErrorEv "Failed to parse response"]) := by
      simp [processLine, hd]
    rw [hstep, hq]
    simp [hw]
  · intro d hd hm hi
    have hq : processLine decode st.commandQueue bad =
        (st.commandQueue, []) := by
      simp [processLine, hd, hm, hi]
    rw [hstep, hq]
    simp [hw]
  · exact (drainFuel_preserves decode
      (withBQ st (st.buffer ++ (bad ++ '\n' :: rest))
        st.commandQueue).buffer.length
      (withBQ st (st.buffer ++ (bad ++ '\n' :: rest))
        st.commandQueue)).2.1

/-- C6 witness: an undecodable line followed by a decodable response line —
the diagnostic is emitted and the response still resolves. -/
theorem C6_witness :
    connState.buffer = ([] : List Char) ∧
    ('\n' ∉ "oops".toList) ∧
    (demoDecode ("oops".toList) = none →
      handleData demoDecode connState
          ("oops".toList ++ '\n' :: demoChunk2) =
        ((handleData demoDecode connState demoChunk2).1,
         Event.logErrorEv "Failed to parse response" ::
           (handleData demoDecode connState demoChunk2).2)) :=
  ⟨rfl, by decide,
   (C6_amended_invalid_line_handling demoDecode connState "oops".toList
     demoChunk2 rfl (by decide)).1⟩

/-- C6 counterexample: `demoDecode` decodes the object line
`\x7b"other":1\x7d` successfully (a stand-in for `JSON.parse` on an object
with neither a `method` nor an `id` key), yet processing it emits no event
at all — in particular it is not reported to the diagnostic sink. -/
theorem C6_counterexample :
    demoDecode ("\x7b\"other\":1\x7d".toList) =
      some ⟨none, none, none⟩ ∧
    handleData demoDecode connState
        ("\x7b\"other\":1\x7d".toList ++ ['\n']) = (connState, []) := by
  exact ⟨by decide, by decide⟩

/-- C7: a send attempted while the session is not connected fails with the
not-connected error, leaves the whole state (in particular the id counter)
unchanged, and writes nothing to the transport. -/
theorem C7_send_not_connected (st : SessionState) (method : String)
    (params : List Param) (h : st.connected = false) :
    sendCommand st method params = (st, [], Except.error notConnectedErr) := by
  have hc : (!st.connected || !st.hasSocket) = true := by
    rw [h]
    rfl
  simp [sendCommand, hc]

/-- C7 witness: sending on a fresh, unconnected session fails with the
not-connected error and changes nothing. -/
theorem C7_witness :
    initState.connected = false ∧
    sendCommand initState "set_power" [] =
      (initState, [], Except.error notConnectedErr) :=
  ⟨rfl, C7_send_not_connected initState "set_power" [] rfl⟩

/-- C8: when a pending command's deadline fires, exactly that entry is
deleted and its completion rejected with `Command timeout` (carrying the
original command), while the lookup of every other id is unchanged. -/
theorem C8_timeout_isolated (st : SessionState) (i : Nat)
    (c : CommandOptions) (h : qGet i st.commandQueue = some c) :
    fireTimeout st i =
      ({ st with commandQueue := qDelete i st.commandQueue },
       [Event.rejectEv i ⟨"Command timeout", none, some c⟩]) ∧
    ∀ j, j ≠ i →
      qGet j (fireTimeout st i).1.commandQueue =
        qGet j st.commandQueue := by
  constructor
  · simp [fireTimeout, h]
  · intro j hj
    simp only [fireTimeout, h]
    exact qGet_qDelete_ne hj st.commandQueue

/-- C8 witness: the single pending command (id 1) times out and is removed;
lookups of other ids are untouched. -/
theorem C8_witness :
    qGet 1 onePendingState.commandQueue =
      some ⟨1, "get_prop", [Param.str "power"]⟩ ∧
    (fireTimeout onePendingState 1 =
        ({ onePendingState with commandQueue := qDelete 1 onePendingState.commandQueue },
         [Event.rejectEv 1 ⟨"Command timeout", none,
           some ⟨1, "get_prop", [Param.str "power"]⟩⟩]) ∧
      ∀ j, j ≠ 1 →
        qGet j (fireTimeout onePendingState 1).1.commandQueue =
          qGet j onePendingState.commandQueue) :=
  ⟨rfl, C8_timeout_isolated onePendingState 1
    ⟨1, "get_prop", [Param.str "power"]⟩ rfl⟩

/-- C9: on a connected session, brightness 0 and 101 are rejected with the
validation error and produce no outbound write and no state change, while
brightness 1 and 100 are accepted, each producing exactly one outbound
command. -/
theorem C9_brightness_validation (st : SessionState) (d : Int)
    (h1 : st.connected = true) (h2 : st.hasSocket = true) :
    setBrightness st 0 d =
      (st, [], Except.error
        ⟨"Brightness must be between 1 and 100", none, none⟩) ∧
    setBrightness st 101 d =
      (st, [], Except.error
        ⟨"Brightness must be between 1 and 100", none, none⟩) ∧
    (setBrightness st 1 d).2.1.length = 1 ∧
    (setBrightness st 1 d).2.2 = Except.ok (st.messageId + 1) ∧
    (setBrightness st 100 d).2.1.length = 1 ∧
    (setBrightness st 100 d).2.2 = Except.ok (st.messageId + 1) := by
  have hc : (!st.connected || !st.hasSocket) = false := by
    rw [h1, h2]
    rfl
  refine ⟨?_, ?_, ?_, ?_, ?_, ?_⟩ <;>
    simp [setBrightness, sendCommand, hc]

/-- C9 witness: the four boundary brightness values on a concrete connected
session. -/
theorem C9_witness :
    connState.connected = true ∧ connState.hasSocket = true ∧
    (setBrightness connState 0 500 =
        (connState, [], Except.error
          ⟨"Brightness must be between 1 and 100", none, none⟩) ∧
      setBrightness connState 101 500 =
        (connState, [], Except.error
          ⟨"Brightness must be between 1 and 100", none, none⟩) ∧
      (setBrightness connState 1 500).2.1.length = 1 ∧
      (setBrightness connState 1 500).2.2 =
        Except.ok (connState.messageId + 1) ∧
      (setBrightness connState 100 500).2.1.length = 1 ∧
      (setBrightness connState 100 500).2.2 =
        Except.ok (connState.messageId + 1)) :=
  ⟨rfl, rfl, C9_brightness_validation connState 500 rfl rfl⟩

/-- C10: `setRGB` performs no range validation: for all integer components
(including negatives and values above 255) it succeeds on a connected
session, writing exactly one command whose color parameter is
`(red << 16) | (green << 8) | blue` under JavaScript 32-bit semantics; in
particular (0, 256, 0) packs to the same value 65536 as (1, 0, 0). -/
theorem C10_rgb_no_validation (st : SessionState)
    (red green blue duration : Int)
    (h1 : st.connected = true) (h2 : st.hasSocket = true) :
    (setRGB st red green blue duration).2.1 =
      [serializeCommand ⟨st.messageId + 1, "set_rgb",
        [Param.int (rgbEncode red green blue), Param.str "smooth",
         Param.int duration]⟩ ++ "\r\n"] ∧
    (setRGB st red green blue duration).2.2 =
      Except.ok (st.messageId + 1) ∧
    rgbEncode 0 256 0 = rgbEncode 1 0 0 ∧
    rgbEncode 1 0 0 = 65536 := by
  have hc : (!st.connected || !st.hasSocket) = false := by
    rw [h1, h2]
    rfl
  refine ⟨?_, ?_, ?_, ?_⟩
  · simp [setRGB, sendCommand, hc]
  · simp [setRGB, sendCommand, hc]
  · decide
  · decide

/-- C10 witness: the aliasing inputs (0, 256, 0) on a concrete connected
session. -/
theorem C10_witness :
    connState.connected = true ∧ connState.hasSocket = true ∧
    ((setRGB connState 0 256 0 500).2.1 =
        [serializeCommand ⟨connState.messageId + 1, "set_rgb",
          [Param.int (rgbEncode 0 256 0), Param.str "smooth",
           Param.int 500]⟩ ++ "\r\n"] ∧
      (setRGB connState 0 256 0 500).2.2 =
        Except.ok (connState.messageId + 1) ∧
      rgbEncode 0 256 0 = rgbEncode 1 0 0 ∧
      rgbEncode 1 0 0 = 65536) :=
  ⟨rfl, rfl, C10_rgb_no_validation connState 0 256 0 500 rfl rfl⟩

end Yeeylight
